import Mathlib

/-!
Verification of the keyberon key-event processing core against its
natural-language specification.

The Lean definitions below are a shallow embedding of the Rust sources:

* `Keyberon.Debouncer` and its `update` embed `src/debounce.rs`;
* `Keyberon.KbHidReport`, `is_modifier`, `as_modifier_bit` and `pressed`
  embed `src/key_code.rs` (`KeyCode` is represented by its `repr(u8)`
  discriminant as a `Nat`: `No = 0`, `ErrorRollOver = 1`, `PostFail = 2`,
  `ErrorUndefined = 3`, ..., `LCtrl = 0xE0`, ..., `RGui = 0xE7`, ...,
  `MediaCalc = 0xFB`);
* `Keyberon.Layout` and its operations (`tick`, `event`, `unstack`,
  `do_action`, `press_as_action`, `current_layer`, ...) embed
  `src/layout.rs`.  The generic parameters are instantiated with
  `K = Nat` (key codes by their `u8` value) and `T = Nat` (custom
  values); the `&'static` indirections of the Rust code
  (`HoldTap(&HoldTapAction {..})`, `MultipleKeyCodes(&[..])`) are
  flattened into the constructors.  `u8`/`u16` fields are modelled as
  `Nat`; saturating operations of the source map to `Nat` truncated
  subtraction and an explicit cap at `65535`.
* the `SeqModel` namespace models the sequence (macro) subsystem from
  the specification, because that subsystem is not present in the
  sources shipped under `src/`.
-/

namespace Keyberon

/-! ## Debouncer (src/debounce.rs) -/

/-- Embedding of `Debouncer` of `src/debounce.rs`: `cur` is the validated state,
`new` the candidate state, `since` the number of consecutive updates
agreeing with the candidate, `nb_bounce` the threshold. -/
structure Debouncer (α : Type) where
  cur : α
  new : α
  since : Nat
  nb_bounce : Nat
deriving Repr, DecidableEq

/-- Embedding of `Debouncer::update` of `src/debounce.rs`: returns the new debouncer
state together with the boolean the Rust function returns (`true` iff
the validated state changed). -/
def Debouncer.update {α : Type} [DecidableEq α] (d : Debouncer α) (new : α) :
    Debouncer α × Bool :=
  if d.cur = new then ({ d with since := 0 }, false)
  else
    let d := if d.new ≠ new then { d with new := new, since := 1 }
             else { d with since := d.since + 1 }
    if d.nb_bounce < d.since then
      ({ d with cur := d.new, new := d.cur, since := 0 }, true)
    else (d, false)

/-- Folds `Debouncer.update` over a list of samples; the boolean is true
iff some update in the run returned true. -/
def run_updates {α : Type} [DecidableEq α] (d : Debouncer α) :
    List α → Debouncer α × Bool
  | [] => (d, false)
  | x :: xs =>
    let p := d.update x
    let q := run_updates p.1 xs
    (q.1, p.2 || q.2)

/-! ## HID report builder (src/key_code.rs) -/

/-- Embedding of `KeyCode::is_modifier`: the modifiers occupy the contiguous range
`LCtrl = 0xE0` to `RGui = 0xE7`. -/
def is_modifier (k : Nat) : Bool := 224 ≤ k && k ≤ 231

/-- Embedding of `KeyCode::as_modifier_bit`: `1 << (code - LCtrl)` for modifiers,
`0` otherwise. -/
def as_modifier_bit (k : Nat) : Nat :=
  if is_modifier k then 1 <<< (k - 224) else 0

/-- Embedding of `KbHidReport` of `src/key_code.rs`.  The Rust type is `[u8; 8]`;
byte 0 is the modifier bitmap (`mods`), byte 1 is the reserved byte and
is never written (it stays `0`), bytes 2..8 are `keys`. -/
structure KbHidReport where
  mods : Nat
  keys : List Nat
deriving Repr, DecidableEq

/-- The `Default` report: all eight bytes zero. -/
def KbHidReport.init : KbHidReport := ⟨0, List.replicate 6 0⟩

/-- Embedding of `KbHidReport::set_all`: fill bytes 2..8 with the given code. -/
def set_all (r : KbHidReport) (kc : Nat) : KbHidReport :=
  { r with keys := List.replicate 6 kc }

/-- The `self.0[2..].iter_mut().find(|c| **c == 0).map(|c| *c = kc)`
part of `KbHidReport::pressed`: set the first zero byte to `kc`,
returning `none` when no byte is zero. -/
def insert_key : List Nat → Nat → Option (List Nat)
  | [], _ => none
  | b :: t, k => if b = 0 then some (k :: t) else (insert_key t k).map (b :: ·)

/-- Embedding of `KbHidReport::pressed` of `src/key_code.rs`. -/
def pressed (r : KbHidReport) (kc : Nat) : KbHidReport :=
  if kc = 0 then r
  else if kc = 1 ∨ kc = 2 ∨ kc = 3 then set_all r kc
  else if is_modifier kc then { r with mods := r.mods ||| as_modifier_bit kc }
  else match insert_key r.keys kc with
    | some ks => { r with keys := ks }
    | none => set_all r 1

/-- The discriminants actually inhabited by `KeyCode` (`repr(u8)`):
`0x00`–`0xA4` and `0xE0`–`0xFB`. -/
def valid_key_code (k : Nat) : Prop := k ≤ 164 ∨ (224 ≤ k ∧ k ≤ 251)

instance valid_key_code_decidable (k : Nat) : Decidable (valid_key_code k) := by
  unfold valid_key_code
  infer_instance

/-! ## Layout engine (src/layout.rs): data model -/

/-- Embedding of `Event` of `src/layout.rs`. -/
inductive Event where
  | Press (i j : Nat)
  | Release (i j : Nat)
deriving Repr, DecidableEq

/-- Embedding of `Event::coord`. -/
def Event.coord : Event → Nat × Nat
  | .Press i j => (i, j)
  | .Release i j => (i, j)

/-- Embedding of `Event::is_press`. -/
def Event.is_press : Event → Bool
  | .Press _ _ => true
  | .Release _ _ => false

/-- Embedding of `CustomEvent` of `src/layout.rs`, with the custom value type
instantiated to `Nat` (the Rust `Press(&'static T)` reference is
modelled by the value itself). -/
inductive CustomEvent where
  | NoEvent
  | Press (v : Nat)
  | Release (v : Nat)
deriving Repr, DecidableEq

/-- Embedding of `CustomEvent::update`: the event is only upgraded along the order
`NoEvent < Press < Release`. -/
def CustomEvent.update (self e : CustomEvent) : CustomEvent :=
  match e, self with
  | .Release _, .NoEvent => e
  | .Release _, .Press _ => e
  | .Press _, .NoEvent => e
  | _, _ => self

/-- Embedding of `Stacked` of `src/layout.rs`: an event waiting in the ring, with its
age in ticks. -/
structure Stacked where
  event : Event
  since : Nat
deriving Repr, DecidableEq

/-- Embedding of `Stacked::tick`: `since.saturating_add(1)` on `u16`. -/
def Stacked.tick (s : Stacked) : Stacked :=
  { s with since := min (s.since + 1) 65535 }

/-- Embedding of `WaitingAction` of `src/layout.rs`. -/
inductive WaitingAction where
  | Hold
  | Tap
  | NoOp
deriving Repr, DecidableEq

/-- Embedding of `HoldTapConfig` of `src/action.rs`. -/
inductive HoldTapConfig where
  | Default
  | HoldOnOtherKeyPress
  | PermissiveHold
  | Custom (f : List Stacked → Option WaitingAction)

/-- Embedding of `Action` of `src/action.rs`, with `T = Nat` and `K = Nat`.  The
`HoldTap(&'static HoldTapAction {..})` indirection is flattened into
the constructor's fields (in source order: `timeout`, `hold`, `tap`,
`config`, `tap_hold_interval`), and the `&'static &'static [..]` slices
become lists. -/
inductive Action where
  | NoOp
  | Trans
  | KeyCode (kc : Nat)
  | MultipleKeyCodes (kcs : List Nat)
  | MultipleActions (acts : List Action)
  | Layer (value : Nat)
  | DefaultLayer (value : Nat)
  | HoldTap (timeout : Nat) (hold tap : Action) (config : HoldTapConfig)
      (tap_hold_interval : Nat)
  | Custom (value : Nat)

/-- Embedding of `State` of `src/layout.rs` (the version in `src/` has exactly the
three coordinate-owning variants). -/
inductive State where
  | NormalKey (keycode : Nat) (coord : Nat × Nat)
  | LayerModifier (value : Nat) (coord : Nat × Nat)
  | Custom (value : Nat) (coord : Nat × Nat)
deriving Repr, DecidableEq

/-- The coordinate owning a state (every variant of `State` in `src/`
carries one). -/
def State.coord : State → Nat × Nat
  | .NormalKey _ c => c
  | .LayerModifier _ c => c
  | .Custom _ c => c

/-- Embedding of `State::keycode`. -/
def State.keycode : State → Option Nat
  | .NormalKey k _ => some k
  | _ => none

/-- Embedding of `State::tick`: every state keeps itself. -/
def State.tick (s : State) : Option State := some s

/-- Embedding of `State::release`: drop the state when its coordinate matches,
upgrading the accumulated custom event when a `Custom` state is
dropped. -/
def State.release (s : State) (c : Nat × Nat) (custom : CustomEvent) :
    Option State × CustomEvent :=
  match s with
  | .NormalKey _ coord => if coord = c then (none, custom) else (some s, custom)
  | .LayerModifier _ coord => if coord = c then (none, custom) else (some s, custom)
  | .Custom v coord =>
    if coord = c then (none, custom.update (.Release v)) else (some s, custom)

/-- Embedding of `State::get_layer`. -/
def State.get_layer : State → Option Nat
  | .LayerModifier v _ => some v
  | _ => none

/-- Embedding of `WaitingState` of `src/layout.rs` (the `&'static Action` references
are held by value). -/
structure WaitingState where
  coord : Nat × Nat
  timeout : Nat
  delay : Nat
  hold : Action
  tap : Action
  config : HoldTapConfig

/-- Embedding of `WaitingState::is_corresponding_release`. -/
def WaitingState.is_corresponding_release (w : WaitingState) (e : Event) : Bool :=
  match e with
  | .Release i j => (i, j) = w.coord
  | _ => false

/-- The `PermissiveHold` scan of `WaitingState::tick`: for each stacked
press, look for a matching release strictly later in the ring. -/
def permissive_hold_check : List Stacked → Bool
  | [] => false
  | s :: rest =>
    (s.event.is_press &&
      rest.any (fun s2 => s2.event = .Release s.event.coord.1 s.event.coord.2))
    || permissive_hold_check rest

/-- Embedding of `WaitingState::tick` of `src/layout.rs`: decrement the timeout
(saturating), consult the configuration for an early decision, then
fall through to the timeout rule.  Returns the updated waiting state
together with the decision of this tick. -/
def WaitingState.tick (w : WaitingState) (stacked : List Stacked) :
    WaitingState × Option WaitingAction :=
  let w := { w with timeout := w.timeout - 1 }
  let early : Option WaitingAction :=
    match w.config with
    | .Default => none
    | .HoldOnOtherKeyPress =>
      if stacked.any (fun s => s.event.is_press) then some .Hold else none
    | .PermissiveHold =>
      if permissive_hold_check stacked then some .Hold else none
    | .Custom f => f stacked
  match early with
  | some a => (w, some a)
  | none =>
    match stacked.find? (fun s => w.is_corresponding_release s.event) with
    | some s =>
      if w.delay ≤ w.timeout + s.since then (w, some .Tap) else (w, some .Hold)
    | none => if w.timeout = 0 then (w, some .Hold) else (w, none)

/-- Embedding of `TapHoldTracker` of `src/layout.rs`. -/
structure TapHoldTracker where
  coord : Nat × Nat
  timeout : Nat
deriving Repr, DecidableEq

/-- Embedding of `TapHoldTracker::tick`: `timeout.saturating_sub(1)`. -/
def TapHoldTracker.tick (t : TapHoldTracker) : TapHoldTracker :=
  { t with timeout := t.timeout - 1 }

/-- Embedding of `Layout` of `src/layout.rs`: the action table, the default layer,
the state set (`heapless::Vec<State, 64>`), the in-flight hold/tap
decision, the stacked ring (`ArrayDeque<Stacked, 32, Wrapping>`) and
the tap-hold tracker. -/
structure Layout where
  layers : List (List (List Action))
  default_layer : Nat
  states : List State
  waiting : Option WaitingState
  stacked : List Stacked
  tap_hold_tracker : TapHoldTracker

/-- Embedding of `heapless::Vec::push` on the 64-capacity state set: `some` of the
extended list on success, `none` (states unchanged, element dropped)
when the set is full. -/
def push_state (s : List State) (x : State) : Option (List State) :=
  if s.length < 64 then some (s ++ [x]) else none

/-- Embedding of `let _ = self.states.push(..)`: push and ignore failure. -/
def push_state_ignore (l : Layout) (x : State) : Layout :=
  match push_state l.states x with
  | some states => { l with states := states }
  | none => l

/-- Embedding of `ArrayDeque::push_back` with `Wrapping` behavior on the 32-capacity
ring: when full, the front element is popped and returned. -/
def push_back_wrapping (s : List Stacked) (x : Stacked) :
    List Stacked × Option Stacked :=
  if s.length < 32 then (s ++ [x], none)
  else
    match s with
    | [] => ([x], none)
    | h :: t => (t ++ [x], some h)

/-- Embedding of `Layout::current_layer`: scan the state set back to front; the
first `LayerModifier` value wins, else the default layer. -/
def current_layer (l : Layout) : Nat :=
  (l.states.reverse.findSome? State.get_layer).getD l.default_layer

/-- Embedding of `Layout::set_default_layer`. -/
def set_default_layer (l : Layout) (value : Nat) : Layout :=
  if value < l.layers.length then { l with default_layer := value } else l

/-- The `self.layers.get(layer).and_then(..).and_then(..)` lookup of
`Layout::press_as_action`. -/
def layer_lookup (layers : List (List (List Action))) (layer : Nat)
    (coord : Nat × Nat) : Option Action :=
  (layers[layer]?.bind fun rows => rows[coord.1]?).bind fun row => row[coord.2]?

/-- Embedding of `Layout::press_as_action` of `src/layout.rs`: absent entries give
`NoOp`; `Trans` off the default layer recurses once onto the default
layer; on the default layer `Trans` gives `NoOp`. -/
def press_as_action (l : Layout) (coord : Nat × Nat) (layer : Nat) : Action :=
  match layer_lookup l.layers layer coord with
  | none => .NoOp
  | some .Trans =>
    if h : layer ≠ l.default_layer then press_as_action l coord l.default_layer
    else .NoOp
  | some a => a
termination_by (if layer = l.default_layer then 0 else 1)
decreasing_by simp [h]

/-- Embedding of `Layout::keycodes`. -/
def keycodes (l : Layout) : List Nat := l.states.filterMap State.keycode

mutual

/-- Embedding of `Layout::do_action` of `src/layout.rs`. -/
def do_action (l : Layout) (action : Action) (coord : Nat × Nat) (delay : Nat) :
    Layout × CustomEvent :=
  match action with
  | .NoOp => (l, .NoEvent)
  | .Trans => (l, .NoEvent)
  | .HoldTap timeout hold tap config tap_hold_interval =>
    let p :=
      if tap_hold_interval = 0 ∨ coord ≠ l.tap_hold_tracker.coord
          ∨ l.tap_hold_tracker.timeout = 0 then
        ({ l with
            waiting := some ⟨coord, timeout, delay, hold, tap, config⟩,
            tap_hold_tracker := { l.tap_hold_tracker with timeout := tap_hold_interval } },
         CustomEvent.NoEvent)
      else
        let l := { l with tap_hold_tracker := { l.tap_hold_tracker with timeout := 0 } }
        (do_action l tap coord delay).1
        |> fun l1 => (l1, CustomEvent.NoEvent)
    -- the tracker coordinate is set after the checks (see source comment)
    ({ p.1 with tap_hold_tracker := { p.1.tap_hold_tracker with coord := coord } },
     CustomEvent.NoEvent)
  | .KeyCode keycode =>
    let l := { l with tap_hold_tracker := { l.tap_hold_tracker with coord := coord } }
    (push_state_ignore l (.NormalKey keycode coord), .NoEvent)
  | .MultipleKeyCodes kcs =>
    let l := { l with tap_hold_tracker := { l.tap_hold_tracker with coord := coord } }
    (kcs.foldl (fun l kc => push_state_ignore l (.NormalKey kc coord)) l, .NoEvent)
  | .MultipleActions acts =>
    let l := { l with tap_hold_tracker := { l.tap_hold_tracker with coord := coord } }
    do_actions l acts coord delay CustomEvent.NoEvent
  | .Layer value =>
    let l := { l with tap_hold_tracker := { l.tap_hold_tracker with coord := coord } }
    (push_state_ignore l (.LayerModifier value coord), .NoEvent)
  | .DefaultLayer value =>
    let l := { l with tap_hold_tracker := { l.tap_hold_tracker with coord := coord } }
    (set_default_layer l value, .NoEvent)
  | .Custom value =>
    let l := { l with tap_hold_tracker := { l.tap_hold_tracker with coord := coord } }
    match push_state l.states (.Custom value coord) with
    | some states => ({ l with states := states }, .Press value)
    | none => (l, .NoEvent)

/-- The `for action in *v { custom.update(self.do_action(..)) }` loop of
the `MultipleActions` arm. -/
def do_actions (l : Layout) (acts : List Action) (coord : Nat × Nat)
    (delay : Nat) (custom : CustomEvent) : Layout × CustomEvent :=
  match acts with
  | [] => (l, custom)
  | a :: rest =>
    let p := do_action l a coord delay
    do_actions p.1 rest coord delay (custom.update p.2)

end

/-- Embedding of `Layout::waiting_into_hold`. -/
def waiting_into_hold (l : Layout) : Layout × CustomEvent :=
  match l.waiting with
  | some w =>
    let l := { l with waiting := none }
    let l :=
      if w.coord = l.tap_hold_tracker.coord then
        { l with tap_hold_tracker := { l.tap_hold_tracker with timeout := 0 } }
      else l
    do_action l w.hold w.coord 0
  | none => (l, .NoEvent)

/-- Embedding of `Layout::waiting_into_tap`. -/
def waiting_into_tap (l : Layout) : Layout × CustomEvent :=
  match l.waiting with
  | some w =>
    let l := { l with waiting := none }
    do_action l w.tap w.coord 0
  | none => (l, .NoEvent)

/-- Embedding of `Layout::drop_waiting`. -/
def drop_waiting (l : Layout) : Layout × CustomEvent :=
  ({ l with waiting := none }, .NoEvent)

/-- The `filter_map(|s| s.release(..))` of `Layout::unstack`, threading
the accumulated custom event left to right. -/
def release_all : List State → (Nat × Nat) → CustomEvent →
    List State × CustomEvent
  | [], _, custom => ([], custom)
  | s :: rest, c, custom =>
    let p := s.release c custom
    let q := release_all rest c p.2
    (match p.1 with
     | some s1 => s1 :: q.1
     | none => q.1, q.2)

/-- Embedding of `Layout::unstack` of `src/layout.rs`. -/
def unstack (l : Layout) (stacked : Stacked) : Layout × CustomEvent :=
  match stacked.event with
  | .Release i j =>
    let p := release_all l.states (i, j) .NoEvent
    ({ l with states := p.1 }, p.2)
  | .Press i j =>
    let action := press_as_action l (i, j) (current_layer l)
    do_action l action (i, j) stacked.since

/-- Embedding of `Layout::event` of `src/layout.rs`: push onto the wrapping ring;
when an element is displaced, resolve any waiting state as a hold and
apply the displaced event synchronously. -/
def Layout.event (l : Layout) (e : Event) : Layout :=
  match push_back_wrapping l.stacked ⟨e, 0⟩ with
  | (st, none) => { l with stacked := st }
  | (st, some displaced) =>
    let l := { l with stacked := st }
    let l := (waiting_into_hold l).1
    (unstack l displaced).1

/-- Embedding of `Layout::tick` of `src/layout.rs`. -/
def Layout.tick (l : Layout) : Layout × CustomEvent :=
  let l :=
    { l with
        states := l.states.filterMap State.tick,
        stacked := l.stacked.map Stacked.tick,
        tap_hold_tracker := l.tap_hold_tracker.tick }
  match l.waiting with
  | some w =>
    let p := w.tick l.stacked
    let l := { l with waiting := some p.1 }
    match p.2 with
    | some .Hold => waiting_into_hold l
    | some .Tap => waiting_into_tap l
    | some .NoOp => drop_waiting l
    | none => (l, .NoEvent)
  | none =>
    match l.stacked with
    | [] => (l, .NoEvent)
    | s :: rest => unstack { l with stacked := rest } s

/-- Embedding of `Layout::new`. -/
def Layout.new (layers : List (List (List Action))) : Layout :=
  { layers := layers
    default_layer := 0
    states := []
    waiting := none
    stacked := []
    tap_hold_tracker := ⟨(0, 0), 0⟩ }

namespace SeqModel

/-- Modelled from the spec: `SequenceEvent` (§3).  The sequence (macro)
subsystem — `Action::Sequence`, `SequenceEvent`, `SequenceState` and the
`FakeKey` state — is described by the specification but absent from the
sources under `src/`, so it is modelled here from the spec's words. -/
inductive SequenceEvent where
  | press (k : Nat)
  | release (k : Nat)
  | tap (k : Nat)
  | delay (n : Nat)
  | complete
deriving Repr, DecidableEq

/-- Modelled from the spec: the actions the sequence model needs —
`NoOp`, `KeyCode(k)` and the missing `Sequence(&[event…])` ("enqueue a
pre-authored macro"). -/
inductive SAction where
  | noop
  | key (k : Nat)
  | sequence (events : List SequenceEvent)
deriving Repr, DecidableEq

/-- Modelled from the spec: `State` extended with the `FakeKey{keycode}`
variant ("a press asserted by a running sequence (no coord)"). -/
inductive SState where
  | normalKey (k : Nat) (coord : Nat × Nat)
  | fakeKey (k : Nat)
deriving Repr, DecidableEq

/-- Modelled from the spec: `SequenceState` (§3): bookkeeping for one
running macro.  `owned` tracks the fake keys this sequence asserted, so
that `Complete` can "drop every `FakeKey` belonging to this sequence". -/
structure SequenceState where
  remaining : List SequenceEvent
  delay_remaining : Nat
  pending_tap_release : Option Nat
  owned : List Nat
deriving Repr, DecidableEq

/-- Modelled from the spec: the layout engine state extended with the
sequence queue (capacity 4). -/
structure SeqLayout where
  layers : List (List (List SAction))
  states : List SState
  sequenced : List SequenceState
  queue : List Event
deriving Repr, DecidableEq

/-- Drop the `FakeKey` states carrying the given key code. -/
def remove_fake (states : List SState) (k : Nat) : List SState :=
  states.filter fun st =>
    match st with
    | .fakeKey k2 => !(k2 == k)
    | _ => true

/-- Modelled from the spec: one step of the sequence interpreter
(§4.4.6) for one `SequenceState`: honor a pending delay, then a pending
tap release, then pull the next `SequenceEvent`. -/
def seq_step (states : List SState) (s : SequenceState) :
    List SState × SequenceState :=
  if 0 < s.delay_remaining then
    (states, { s with delay_remaining := s.delay_remaining - 1 })
  else
    match s.pending_tap_release with
    | some k => (remove_fake states k, { s with pending_tap_release := none })
    | none =>
      match s.remaining with
      | [] => (states, s)
      | e :: rest =>
        match e with
        | .press k =>
          (states ++ [.fakeKey k],
           { s with remaining := rest, owned := s.owned ++ [k] })
        | .release k => (remove_fake states k, { s with remaining := rest })
        | .tap k =>
          (states ++ [.fakeKey k],
           { s with remaining := rest, pending_tap_release := some k,
                    owned := s.owned ++ [k] })
        | .delay d =>
          (states, { s with remaining := rest, delay_remaining := d - 1 })
        | .complete =>
          (states.filter fun st =>
            match st with
            | .fakeKey k2 => !(s.owned.contains k2)
            | _ => true,
           { s with remaining := [] })

/-- Modelled from the spec: advance every running sequence in
round-robin order; "reschedule the sequence iff `remaining` is
non-empty". -/
def process_sequences (l : SeqLayout) : SeqLayout :=
  let p := l.sequenced.foldl
    (fun (acc : List SState × List SequenceState) s =>
      let q := seq_step acc.1 s
      (q.1, if q.2.remaining.isEmpty then acc.2 else acc.2 ++ [q.2]))
    (l.states, [])
  { l with states := p.1, sequenced := p.2 }

/-- Modelled from the spec: apply one event.  A press resolves the
action of the (single, default) layer: `KeyCode` inserts a normal key
state, `Sequence` "enqueue[s] a fresh `SequenceState`" (silently
dropped when the queue of capacity 4 is full); a release drops the
normal-key states at the coordinate. -/
def sapply (l : SeqLayout) (e : Event) : SeqLayout :=
  match e with
  | .Press i j =>
    match (l.layers[0]?.bind fun rows => rows[i]?).bind fun row => row[j]? with
    | some (SAction.key k) => { l with states := l.states ++ [.normalKey k (i, j)] }
    | some (SAction.sequence evs) =>
      if l.sequenced.length < 4 then
        { l with sequenced := l.sequenced ++ [⟨evs, 0, none, []⟩] }
      else l
    | _ => l
  | .Release i j =>
    { l with states := l.states.filter fun st =>
        match st with
        | .normalKey _ c => !(c == (i, j))
        | .fakeKey _ => true }

/-- Modelled from the spec: one tick of the engine with sequences.  The
running sequences advance, then one queued event is applied.  Sequences
are advanced before the event intake so that a macro enqueued by this
tick's event starts playing on the next tick, as required by the
spec's scenario 6 ("Press trigger, tick (enqueue), tick → {LCtrl},
…"). -/
def SeqLayout.tick (l : SeqLayout) : SeqLayout :=
  let l := process_sequences l
  match l.queue with
  | [] => l
  | e :: rest => sapply { l with queue := rest } e

/-- Register a key event: append it to the queue. -/
def SeqLayout.event (l : SeqLayout) (e : Event) : SeqLayout :=
  { l with queue := l.queue ++ [e] }

/-- The key codes asserted by the states (from normal and fake keys). -/
def SeqLayout.keycodes (l : SeqLayout) : List Nat :=
  l.states.map fun st =>
    match st with
    | .normalKey k _ => k
    | .fakeKey k => k

/-- A fresh engine over the given action table. -/
def SeqLayout.new (layers : List (List (List SAction))) : SeqLayout :=
  ⟨layers, [], [], []⟩

end SeqModel

/-- The custom event `Layout::unstack` reports for a release: the value
of the first `Custom` state at the coordinate, if any. -/
def first_custom_release (states : List State) (c : Nat × Nat) : CustomEvent :=
  match states.find? (fun s =>
      match s with
      | State.Custom _ c2 => c2 == c
      | _ => false) with
  | some (State.Custom v _) => CustomEvent.Release v
  | _ => CustomEvent.NoEvent

/-- The shape bytes 2..8 take after a run of insertions whose
non-modifier codes are `ns`: the codes in insertion order padded with
zeros while at most six fit, all `ErrorRollOver` (= 1) afterwards. -/
def keys_of (ns : List Nat) : List Nat :=
  if ns.length ≤ 6 then ns ++ List.replicate (6 - ns.length) 0
  else List.replicate 6 1

/-- Formalization of "the new state is seen fewer than `N` consecutive times": no value
other than `c` occurs `N` times in a row anywhere in the sequence. -/
def no_long_run {α : Type} (c : α) (N : Nat) (xs : List α) : Prop :=
  ∀ v p s, v ≠ c → xs ≠ p ++ List.replicate N v ++ s

/-- Length of the initial run of `v` in `xs`. -/
def prefix_run {α : Type} [DecidableEq α] (v : α) (xs : List α) : Nat :=
  (xs.takeWhile (fun y => y == v)).length

/-- Iterated `SeqModel.SeqLayout.tick`. -/
def seq_ticks (l : SeqModel.SeqLayout) : Nat → SeqModel.SeqLayout
  | 0 => l
  | n + 1 => (seq_ticks l n).tick

/-- The engine of the spec scenario 6: a single key bound to the Ctrl-C
macro `Sequence(&[Press(LCtrl), Press(C), Release(C), Release(LCtrl)])`
(`LCtrl = 224`, `C = 6`), with its press just registered. -/
def ctrl_c_engine : SeqModel.SeqLayout :=
  (SeqModel.SeqLayout.new
    [[[ .sequence [.press 224, .press 6, .release 6, .release 224] ]]]).event
    (.Press 0 0)

/-! ## Supporting lemmas -/

/-- Characterization of the `PermissiveHold` scan: it fires exactly when
the ring holds a press followed (strictly later) by a release with the
same coordinates. -/
theorem permissive_hold_check_iff (stacked : List Stacked) :
    permissive_hold_check stacked = true ↔
      ∃ t1 a t2 b t3, stacked = t1 ++ a :: t2 ++ b :: t3
        ∧ a.event.is_press = true
        ∧ b.event = Event.Release a.event.coord.1 a.event.coord.2 := by
  induction stacked with
  | nil => simp [permissive_hold_check]
  | cons s rest ih =>
    constructor
    · intro h
      simp only [permissive_hold_check, Bool.or_eq_true, Bool.and_eq_true,
        List.any_eq_true, decide_eq_true_eq] at h
      rcases h with ⟨hp, s2, hs2, he⟩ | h2
      · rcases List.append_of_mem hs2 with ⟨t2, t3, rfl⟩
        exact ⟨[], s, t2, s2, t3, by simp, hp, he⟩
      · rcases ih.1 h2 with ⟨t1, a, t2, b, t3, hst, hp, he⟩
        exact ⟨s :: t1, a, t2, b, t3, by simp [hst], hp, he⟩
    · rintro ⟨t1, a, t2, b, t3, hst, hp, he⟩
      simp only [permissive_hold_check, Bool.or_eq_true, Bool.and_eq_true,
        List.any_eq_true, decide_eq_true_eq]
      cases t1 with
      | nil =>
        rw [List.nil_append] at hst
        injection hst with h1 h2
        subst h1
        left
        refine ⟨hp, b, ?_, he⟩
        rw [h2]
        exact List.mem_append_right _ (List.mem_cons_self _ _)
      | cons x t1 =>
        rw [List.cons_append] at hst
        injection hst with h1 h2
        right
        exact ih.2 ⟨t1, a, t2, b, t3, h2, hp, he⟩

/-! ## Claims -/

/-- Claim C4 (spec-modelled). The layout engine supports a `Sequence`
action that enqueues a pre-authored macro of `SequenceEvent`s played
back over subsequent ticks via `FakeKey` states: pressing a key bound
to `Sequence(&[Press(LCtrl), Press(C), Release(C), Release(LCtrl)])`
(key codes `LCtrl = 224`, `C = 6`) and ticking yields the keycode sets
`∅` (enqueue tick), `{LCtrl}`, `{LCtrl, C}`, `{LCtrl}`, `∅` on
consecutive ticks. -/
theorem claim_C4 :
    (seq_ticks ctrl_c_engine 1).keycodes = []
    ∧ (seq_ticks ctrl_c_engine 2).keycodes = [224]
    ∧ (seq_ticks ctrl_c_engine 3).keycodes = [224, 6]
    ∧ (seq_ticks ctrl_c_engine 4).keycodes = [224]
    ∧ (seq_ticks ctrl_c_engine 5).keycodes = [] := by
  exact ⟨rfl, rfl, rfl, rfl, rfl⟩

/-- Claim C1. For a `WaitingState` with `HoldTapConfig::Default`, each
tick — after decrementing the timeout by one, saturating at zero —
resolves as follows: when the stacked ring contains the release event
of the waiting key's coordinates (first such entry), the decision is
`Tap` when the remaining timeout plus that release's age is at least
the recorded initial delay, and `Hold` otherwise; with no such release
stacked, the decision is `Hold` when the remaining timeout is zero and
no decision (pending) otherwise. -/
theorem claim_C1 (w : WaitingState) (stacked : List Stacked)
    (hcfg : w.config = HoldTapConfig.Default) :
    ((WaitingState.tick w stacked).1.timeout = w.timeout - 1)
    ∧ (∀ s, stacked.find? (fun s => w.is_corresponding_release s.event) = some s →
        ((w.delay ≤ (w.timeout - 1) + s.since →
            (WaitingState.tick w stacked).2 = some WaitingAction.Tap)
         ∧ ((w.timeout - 1) + s.since < w.delay →
            (WaitingState.tick w stacked).2 = some WaitingAction.Hold)))
    ∧ (stacked.find? (fun s => w.is_corresponding_release s.event) = none →
        ((w.timeout - 1 = 0 →
            (WaitingState.tick w stacked).2 = some WaitingAction.Hold)
         ∧ (w.timeout - 1 ≠ 0 → (WaitingState.tick w stacked).2 = none))) := by
  have hpred : (fun (s : Stacked) => WaitingState.is_corresponding_release
        ⟨w.coord, w.timeout - 1, w.delay, w.hold, w.tap, HoldTapConfig.Default⟩
        s.event)
      = fun (s : Stacked) => w.is_corresponding_release s.event := rfl
  refine ⟨?_, ?_, ?_⟩
  · simp only [WaitingState.tick, hcfg, hpred]
    rcases hf : stacked.find? (fun s => w.is_corresponding_release s.event)
      with _ | s <;> simp [hf] <;> split <;> rfl
  · intro s hs
    constructor
    · intro hle
      simp only [WaitingState.tick, hcfg, hpred, hs]
      simp [hle]
    · intro hlt
      simp only [WaitingState.tick, hcfg, hpred, hs]
      simp [Nat.not_le.2 hlt]
  · intro hn
    constructor
    · intro h0
      simp only [WaitingState.tick, hcfg, hpred, hn]
      simp [h0]
    · intro h0
      simp only [WaitingState.tick, hcfg, hpred, hn]
      simp [h0]

/-- Witness for C1 at a concrete waiting state and ring: the release is
stacked with age 2, remaining timeout 4 and delay 3, so the decision is
`Tap`. -/
theorem claim_C1_witness :
    (WaitingState.tick ⟨(0, 0), 5, 3, .NoOp, .NoOp, .Default⟩
        [⟨.Release 0 0, 2⟩]).2 = some WaitingAction.Tap :=
  ((claim_C1 ⟨(0, 0), 5, 3, .NoOp, .NoOp, .Default⟩ [⟨.Release 0 0, 2⟩]
    rfl).2.1 ⟨.Release 0 0, 2⟩ rfl).1 (by decide)

/-- Claim C7. For a `WaitingState` with `HoldTapConfig::PermissiveHold`:
if on some tick the stacked ring contains a press and, later in the
ring, a release with the same coordinates, the waiting state resolves
to `Hold` on that tick; if no such pair exists the decision falls
through to the `Default` timeout rule (formally: it coincides with the
decision of the same waiting state configured as `Default`). -/
theorem claim_C7 (w : WaitingState) (stacked : List Stacked)
    (hcfg : w.config = HoldTapConfig.PermissiveHold) :
    ((∃ t1 a t2 b t3, stacked = t1 ++ a :: t2 ++ b :: t3
        ∧ a.event.is_press = true
        ∧ b.event = Event.Release a.event.coord.1 a.event.coord.2) →
      (WaitingState.tick w stacked).2 = some WaitingAction.Hold)
    ∧ ((¬ ∃ t1 a t2 b t3, stacked = t1 ++ a :: t2 ++ b :: t3
        ∧ a.event.is_press = true
        ∧ b.event = Event.Release a.event.coord.1 a.event.coord.2) →
      (WaitingState.tick w stacked).2
        = (WaitingState.tick { w with config := HoldTapConfig.Default }
            stacked).2) := by
  have hp1 : (fun (s : Stacked) => WaitingState.is_corresponding_release
        ⟨w.coord, w.timeout - 1, w.delay, w.hold, w.tap,
          HoldTapConfig.PermissiveHold⟩ s.event)
      = fun (s : Stacked) => w.is_corresponding_release s.event := rfl
  have hp2 : (fun (s : Stacked) => WaitingState.is_corresponding_release
        ⟨w.coord, w.timeout - 1, w.delay, w.hold, w.tap,
          HoldTapConfig.Default⟩ s.event)
      = fun (s : Stacked) => w.is_corresponding_release s.event := rfl
  constructor
  · intro hex
    have hc : permissive_hold_check stacked = true :=
      (permissive_hold_check_iff stacked).2 hex
    simp [WaitingState.tick, hcfg, hc]
  · intro hnex
    have hc : permissive_hold_check stacked = false := by
      by_contra h
      exact hnex ((permissive_hold_check_iff stacked).1 (by simpa using h))
    simp only [WaitingState.tick, hcfg, hc, hp1, hp2]
    rcases hf : stacked.find? (fun s => w.is_corresponding_release s.event)
      with _ | s <;> simp [hf] <;> split <;> rfl

/-- Witness for C7: with a press of `(1, 2)` stacked before its release,
the permissive-hold waiting state resolves to `Hold`. -/
theorem claim_C7_witness :
    (WaitingState.tick ⟨(0, 0), 50, 0, .NoOp, .NoOp, .PermissiveHold⟩
        [⟨.Press 1 2, 3⟩, ⟨.Release 1 2, 1⟩]).2 = some WaitingAction.Hold :=
  (claim_C7 ⟨(0, 0), 50, 0, .NoOp, .NoOp, .PermissiveHold⟩
      [⟨.Press 1 2, 3⟩, ⟨.Release 1 2, 1⟩] rfl).1
    ⟨[], ⟨.Press 1 2, 3⟩, [], ⟨.Release 1 2, 1⟩, [], rfl, rfl, rfl⟩

/-- Claim C6. `press_as_action`: an out-of-bounds lookup gives `NoOp`; a
`Trans` entry off the default layer gives the result of the lookup at
the same coordinate on the default layer with no further recursion
(`Trans` on the default layer, also when reached by fallthrough, gives
`NoOp`); any other entry is returned as is. -/
theorem claim_C6 (l : Layout) (coord : Nat × Nat) (layer : Nat) :
    (layer_lookup l.layers layer coord = none →
       press_as_action l coord layer = Action.NoOp)
    ∧ (layer_lookup l.layers layer coord = some Action.Trans →
        (layer ≠ l.default_layer →
           press_as_action l coord layer = press_as_action l coord l.default_layer
           ∧ (layer_lookup l.layers l.default_layer coord = some Action.Trans →
               press_as_action l coord layer = Action.NoOp))
        ∧ (layer = l.default_layer →
            press_as_action l coord layer = Action.NoOp))
    ∧ (∀ a, layer_lookup l.layers layer coord = some a → a ≠ Action.Trans →
         press_as_action l coord layer = a) := by
  refine ⟨?_, ?_, ?_⟩
  · intro h
    rw [press_as_action.eq_def, h]
  · intro h
    constructor
    · intro hne
      have hdef : press_as_action l coord layer
          = press_as_action l coord l.default_layer := by
        rw [press_as_action.eq_def, h]
        simp [hne]
      refine ⟨hdef, ?_⟩
      intro hd
      rw [hdef, press_as_action.eq_def, hd]
      simp
    · intro heq
      rw [press_as_action.eq_def, h]
      simp [heq]
  · intro a h hne
    cases a with
    | Trans => exact absurd rfl hne
    | NoOp => rw [press_as_action.eq_def, h]
    | KeyCode kc => rw [press_as_action.eq_def, h]
    | MultipleKeyCodes kcs => rw [press_as_action.eq_def, h]
    | MultipleActions acts => rw [press_as_action.eq_def, h]
    | Layer v => rw [press_as_action.eq_def, h]
    | DefaultLayer v => rw [press_as_action.eq_def, h]
    | HoldTap t h2 t2 c2 i2 => rw [press_as_action.eq_def, h]
    | Custom v => rw [press_as_action.eq_def, h]

/-- Witness for C6: on a two-layer table whose layer 1 is `Trans` over a
default layer holding `KeyCode 4`, a press on layer 1 falls through to
`KeyCode 4`. -/
theorem claim_C6_witness :
    press_as_action (Layout.new [[[.KeyCode 4]], [[.Trans]]]) (0, 0) 1
      = Action.KeyCode 4 := by
  have h := ((claim_C6 (Layout.new [[[.KeyCode 4]], [[.Trans]]]) (0, 0) 1).2.1
    rfl).1 (by decide)
  rw [h.1]
  exact (claim_C6 (Layout.new [[[.KeyCode 4]], [[.Trans]]]) (0, 0) 0).2.2
    (Action.KeyCode 4) rfl (fun hcon => Action.noConfusion hcon)

/-- Claim C10. `do_action` on `Action::Custom(value)` with the state set
(capacity 64) already full silently drops the `Custom` state and
returns `CustomEvent::NoEvent`; when the set has room the state is
inserted and `CustomEvent::Press(value)` is returned — the press pulse
is emitted exactly when the insertion succeeds. -/
theorem claim_C10 (l : Layout) (v : Nat) (coord : Nat × Nat) (delay : Nat) :
    (64 ≤ l.states.length →
        do_action l (Action.Custom v) coord delay =
          ({ l with tap_hold_tracker := { l.tap_hold_tracker with coord := coord } },
           CustomEvent.NoEvent))
    ∧ (l.states.length < 64 →
        do_action l (Action.Custom v) coord delay =
          ({ l with
              states := l.states ++ [State.Custom v coord],
              tap_hold_tracker := { l.tap_hold_tracker with coord := coord } },
           CustomEvent.Press v)) := by
  constructor
  · intro h
    simp [do_action, push_state, Nat.not_lt.2 h]
  · intro h
    simp [do_action, push_state, h]

/-- Claim C8. `Layout::event`: when the stacked ring (capacity 32) is
full, the oldest stacked event is displaced by the push, any in-flight
`WaitingState` is first resolved as a hold, and the displaced event is
applied synchronously within the same call; when the ring is not full,
`event` only appends the new event and changes nothing else.  The third
conjunct pins down the hold resolution: with a waiting state in
flight, `waiting_into_hold` clears it and performs its hold action at
its coordinate. -/
theorem claim_C8 (l : Layout) (e : Event) :
    (l.stacked.length < 32 →
       Layout.event l e = { l with stacked := l.stacked ++ [⟨e, 0⟩] })
    ∧ (l.stacked.length = 32 →
       ∀ oldest rest, l.stacked = oldest :: rest →
         Layout.event l e =
           (unstack ((waiting_into_hold
               { l with stacked := rest ++ [⟨e, 0⟩] }).1) oldest).1)
    ∧ (∀ w, l.waiting = some w →
        waiting_into_hold l =
          do_action
            (if w.coord = l.tap_hold_tracker.coord then
               { l with
                  waiting := none,
                  tap_hold_tracker := { l.tap_hold_tracker with timeout := 0 } }
             else { l with waiting := none })
            w.hold w.coord 0) := by
  refine ⟨?_, ?_, ?_⟩
  · intro h
    simp [Layout.event, push_back_wrapping, h]
  · intro h oldest rest hsr
    have hlen : ¬ (rest.length + 1 < 32) := by
      rw [hsr] at h
      simp only [List.length_cons] at h
      omega
    simp [Layout.event, push_back_wrapping, hsr, hlen]
  · intro w hw
    simp [waiting_into_hold, hw]

/-- Witness for C8 exercising both ring regimes: an empty ring only
appends, and a full ring (32 stacked events) displaces the oldest event
and applies it through `waiting_into_hold` and `unstack`. -/
theorem claim_C8_witness :
    (Layout.event (Layout.new []) (.Press 0 0)
        = { Layout.new [] with stacked := [⟨.Press 0 0, 0⟩] })
    ∧ (Layout.event
          { Layout.new [] with stacked := List.replicate 32 ⟨.Release 1 1, 5⟩ }
          (.Press 0 0)
        = (unstack ((waiting_into_hold
            { Layout.new [] with
                stacked := List.replicate 31 ⟨.Release 1 1, 5⟩ ++ [⟨.Press 0 0, 0⟩] }).1)
            ⟨.Release 1 1, 5⟩).1) :=
  ⟨(claim_C8 (Layout.new []) (.Press 0 0)).1 (by simp [Layout.new]),
   (claim_C8 { Layout.new [] with stacked := List.replicate 32 ⟨.Release 1 1, 5⟩ }
        (.Press 0 0)).2.1 (by simp [Layout.new])
      ⟨.Release 1 1, 5⟩ (List.replicate 31 ⟨.Release 1 1, 5⟩) (by simp [Layout.new])⟩

/-- Embedding of `release_all` keeps exactly the states whose coordinate differs,
in order, independently of the accumulated custom event. -/
theorem release_all_fst (states : List State) (c : Nat × Nat)
    (custom : CustomEvent) :
    (release_all states c custom).1
      = states.filter (fun s => !(State.coord s == c)) := by
  induction states generalizing custom with
  | nil => rfl
  | cons s rest ih =>
    cases s with
    | NormalKey k c2 =>
      by_cases h : c2 = c <;>
        simp [release_all, State.release, State.coord, h, List.filter_cons, ih]
    | LayerModifier v c2 =>
      by_cases h : c2 = c <;>
        simp [release_all, State.release, State.coord, h, List.filter_cons, ih]
    | Custom v c2 =>
      by_cases h : c2 = c <;>
        simp [release_all, State.release, State.coord, h, List.filter_cons, ih]

/-- Once the accumulated custom event is a `Release`, `release_all`
never changes it. -/
theorem release_all_snd_release (states : List State) (c : Nat × Nat) (v : Nat) :
    (release_all states c (CustomEvent.Release v)).2 = CustomEvent.Release v := by
  induction states with
  | nil => rfl
  | cons s rest ih =>
    cases s with
    | NormalKey k c2 =>
      by_cases h : c2 = c <;> simp [release_all, State.release, h, ih]
    | LayerModifier v2 c2 =>
      by_cases h : c2 = c <;> simp [release_all, State.release, h, ih]
    | Custom v2 c2 =>
      by_cases h : c2 = c <;>
        simp [release_all, State.release, h, CustomEvent.update, ih]

/-- Starting from `NoEvent`, the custom event produced by `release_all`
is the release of the first `Custom` state at the coordinate. -/
theorem release_all_snd (states : List State) (c : Nat × Nat) :
    (release_all states c CustomEvent.NoEvent).2 = first_custom_release states c := by
  induction states with
  | nil => rfl
  | cons s rest ih =>
    cases s with
    | NormalKey k c2 =>
      by_cases h : c2 = c <;>
        simp [release_all, State.release, first_custom_release, List.find?, h, ih]
    | LayerModifier v2 c2 =>
      by_cases h : c2 = c <;>
        simp [release_all, State.release, first_custom_release, List.find?, h, ih]
    | Custom v2 c2 =>
      by_cases h : c2 = c
      · subst h
        simp [release_all, State.release, first_custom_release, List.find?,
          CustomEvent.update, release_all_snd_release]
      · have hb : (c2 == c) = false := by simp [h]
        simp [release_all, State.release, first_custom_release, List.find?, h,
          hb, ih]

/-- Claim C9. Processing a `Release(i, j)` event removes from the state
set exactly the states whose coordinate is `(i, j)`, preserving every
other state unchanged and in order and adding none, so afterwards no
state references `(i, j)`; the reported custom event is
`CustomEvent::Release(v)` exactly when a `Custom` state (the first one
at that coordinate, of value `v`) was dropped; the rest of the engine
state is untouched. -/
theorem claim_C9 (l : Layout) (i j : Nat) (since : Nat) :
    let p := unstack l ⟨Event.Release i j, since⟩
    p.1.states = l.states.filter (fun s => !(State.coord s == (i, j)))
    ∧ (p.1.states.all fun s => !(State.coord s == (i, j))) = true
    ∧ p.2 = first_custom_release l.states (i, j)
    ∧ p.1.layers = l.layers ∧ p.1.default_layer = l.default_layer
    ∧ p.1.waiting = l.waiting ∧ p.1.stacked = l.stacked
    ∧ p.1.tap_hold_tracker = l.tap_hold_tracker := by
  refine ⟨?_, ?_, ?_, rfl, rfl, rfl, rfl, rfl⟩
  · simp [unstack, release_all_fst]
  · simp only [unstack, release_all_fst, List.all_eq_true]
    intro s hs
    exact (List.mem_filter.1 hs).2
  · simp [unstack, release_all_snd]

/-- Claim C5. `current_layer()` is the value of the last `LayerModifier`
still in the state set — the most recently pushed one, since every
insertion appends at the end and releases drop states in place — or
the default layer when none is held; consequently it always lies in
`{default_layer} ∪ {values of held LayerModifier states}` (LIFO choice,
not an additive sum). -/
theorem claim_C5 (l : Layout) :
    (current_layer l = l.default_layer
      ∨ ∃ c, State.LayerModifier (current_layer l) c ∈ l.states)
    ∧ (∀ s1 v c s2, l.states = s1 ++ State.LayerModifier v c :: s2 →
        (∀ v2 c2, State.LayerModifier v2 c2 ∉ s2) → current_layer l = v) := by
  constructor
  · rcases hf : l.states.reverse.findSome? State.get_layer with _ | u
    · left
      simp [current_layer, hf]
    · right
      rcases List.exists_of_findSome?_eq_some hf with ⟨x, hx, hgl⟩
      cases x with
      | NormalKey k c2 => simp [State.get_layer] at hgl
      | Custom v2 c2 => simp [State.get_layer] at hgl
      | LayerModifier v2 c2 =>
        simp only [State.get_layer, Option.some.injEq] at hgl
        refine ⟨c2, ?_⟩
        have : current_layer l = u := by simp [current_layer, hf]
        rw [this, ← hgl]
        exact List.mem_reverse.1 hx
  · intro s1 v c s2 hst hno
    have h2 : l.states.reverse
        = s2.reverse ++ State.LayerModifier v c :: s1.reverse := by
      rw [hst]
      simp
    have hnone : s2.reverse.findSome? State.get_layer = none := by
      rw [List.findSome?_eq_none_iff]
      intro x hx
      cases x with
      | NormalKey k c2 => rfl
      | Custom v2 c2 => rfl
      | LayerModifier v2 c2 =>
        exact absurd (List.mem_reverse.1 hx) (hno v2 c2)
    simp [current_layer, h2, List.findSome?_append, hnone, List.findSome?,
      State.get_layer]

/-- Witness for C5: with the states `[NormalKey 4 (0,0),
LayerModifier 3 (0,1), NormalKey 5 (1,0)]`, the layer modifier is the
last one held and the current layer is 3. -/
theorem claim_C5_witness :
    current_layer
      { Layout.new [] with
          states := [.NormalKey 4 (0, 0), .LayerModifier 3 (0, 1),
            .NormalKey 5 (1, 0)] } = 3 :=
  (claim_C5 { Layout.new [] with
      states := [.NormalKey 4 (0, 0), .LayerModifier 3 (0, 1),
        .NormalKey 5 (1, 0)] }).2
    [.NormalKey 4 (0, 0)] 3 (0, 1) [.NormalKey 5 (1, 0)] rfl
    (by intro v2 c2 hmem; simp at hmem)

/-- Witness for C10: with 64 states already held, the custom press is
dropped and no pulse is emitted. -/
theorem claim_C10_witness :
    do_action
        { Layout.new [] with states := List.replicate 64 (.NormalKey 4 (0, 0)) }
        (Action.Custom 7) (0, 1) 0 =
      ({ Layout.new [] with
          states := List.replicate 64 (.NormalKey 4 (0, 0)),
          tap_hold_tracker := ⟨(0, 1), 0⟩ },
       CustomEvent.NoEvent) :=
  (claim_C10
    { Layout.new [] with states := List.replicate 64 (.NormalKey 4 (0, 0)) }
    7 (0, 1) 0).1 (by simp)

/-! ## C2: the HID report builder -/

/-- Inserting into a buffer of nonzero codes followed by zeros targets
the first zero slot. -/
theorem insert_key_pad (ns : List Nat) (k : Nat) (h : ∀ x ∈ ns, x ≠ 0)
    (m : Nat) :
    insert_key (ns ++ 0 :: List.replicate m 0) k
      = some (ns ++ k :: List.replicate m 0) := by
  induction ns with
  | nil => simp [insert_key]
  | cons b t ih =>
    have hb : b ≠ 0 := h b (List.mem_cons_self b t)
    simp [insert_key, hb, ih (fun x hx => h x (List.mem_cons_of_mem b hx))]

/-- A buffer with no zero slot rejects the insertion. -/
theorem insert_key_none (ns : List Nat) (k : Nat) (h : ∀ x ∈ ns, x ≠ 0) :
    insert_key ns k = none := by
  induction ns with
  | nil => rfl
  | cons b t ih =>
    have hb : b ≠ 0 := h b (List.mem_cons_self b t)
    simp [insert_key, hb, ih (fun x hx => h x (List.mem_cons_of_mem b hx))]

/-- Folding `pressed` over codes `≥ 4` drives bytes 2..8 through
`keys_of`. -/
theorem pressed_fold_keys (ks : List Nat) (r : KbHidReport) (ns : List Nat)
    (hks : ∀ k ∈ ks, 4 ≤ k) (hns : ∀ x ∈ ns, x ≠ 0)
    (hr : r.keys = keys_of ns) :
    (List.foldl pressed r ks).keys
      = keys_of (ns ++ ks.filter (fun k => !is_modifier k)) := by
  induction ks generalizing r ns with
  | nil => simpa using hr
  | cons k t ih =>
    have hk4 : 4 ≤ k := hks k (List.mem_cons_self k t)
    have hkt : ∀ k2 ∈ t, 4 ≤ k2 := fun k2 h2 => hks k2 (List.mem_cons_of_mem k h2)
    have h0 : ¬ (k = 0) := by omega
    have h123 : ¬ (k = 1 ∨ k = 2 ∨ k = 3) := by omega
    by_cases hm : is_modifier k = true
    · have hkeep : (pressed r k).keys = r.keys := by
        simp [pressed, h0, h123, hm]
      rw [List.foldl_cons, ih (pressed r k) ns hkt hns (hkeep.trans hr)]
      simp [List.filter_cons, hm]
    · have hmf : is_modifier k = false := by
        simpa using hm
      rcases Nat.lt_or_ge ns.length 6 with hlt | hge
      · obtain ⟨m, hm6⟩ : ∃ m, 6 - ns.length = m + 1 :=
          ⟨6 - ns.length - 1, by omega⟩
        have hrep : keys_of ns = ns ++ 0 :: List.replicate m 0 := by
          rw [keys_of, if_pos (Nat.le_of_lt hlt), hm6, List.replicate_succ]
        have hins : insert_key r.keys k
            = some (ns ++ k :: List.replicate m 0) := by
          rw [hr, hrep]
          exact insert_key_pad ns k hns m
        have hkeys : (pressed r k).keys
            = ns ++ k :: List.replicate m 0 := by
          simp [pressed, h0, h123, hmf, hins]
        have hr2 : (pressed r k).keys = keys_of (ns ++ [k]) := by
          rw [hkeys, keys_of, if_pos (by simp; omega)]
          have hm2 : 6 - (ns ++ [k]).length = m := by simp; omega
          rw [hm2]
          simp
        have hns2 : ∀ x ∈ ns ++ [k], x ≠ 0 := by
          intro x hx
          rcases List.mem_append.1 hx with hx1 | hx2
          · exact hns x hx1
          · simp at hx2
            omega
        rw [List.foldl_cons, ih (pressed r k) (ns ++ [k]) hkt hns2 hr2]
        simp [List.filter_cons, hmf]
      · have hnz : ∀ x ∈ r.keys, x ≠ 0 := by
          rw [hr, keys_of]
          split
          · intro x hx
            rcases List.mem_append.1 hx with hx1 | hx2
            · exact hns x hx1
            · have h6 : ns.length = 6 := by omega
              rw [h6] at hx2
              simp at hx2
          · intro x hx
            have := List.eq_of_mem_replicate hx
            omega
        have hins : insert_key r.keys k = none := insert_key_none _ k hnz
        have hkeys : (pressed r k).keys = List.replicate 6 1 := by
          simp [pressed, h0, h123, hmf, hins, set_all]
        have hr2 : (pressed r k).keys = keys_of (ns ++ [k]) := by
          rw [hkeys, keys_of, if_neg (by simp; omega)]
        have hns2 : ∀ x ∈ ns ++ [k], x ≠ 0 := by
          intro x hx
          rcases List.mem_append.1 hx with hx1 | hx2
          · exact hns x hx1
          · simp at hx2
            omega
        rw [List.foldl_cons, ih (pressed r k) (ns ++ [k]) hkt hns2 hr2]
        simp [List.filter_cons, hmf]

/-- Embedding of `pressed` never clears a modifier bit. -/
theorem pressed_mods_mono (r : KbHidReport) (k i : Nat)
    (h : Nat.testBit r.mods i = true) :
    Nat.testBit (pressed r k).mods i = true := by
  unfold pressed
  split
  · exact h
  · split
    · simpa [set_all] using h
    · split
      · simp [Nat.testBit_or, h]
      · split
        · exact h
        · simpa [set_all] using h

/-- Nor does a whole fold of `pressed`. -/
theorem pressed_foldl_mono (ks : List Nat) (r : KbHidReport) (i : Nat)
    (h : Nat.testBit r.mods i = true) :
    Nat.testBit (List.foldl pressed r ks).mods i = true := by
  induction ks generalizing r with
  | nil => exact h
  | cons k t ih => exact ih (pressed r k) (pressed_mods_mono r k i h)

/-- Every modifier in the folded multiset ends with its bit set. -/
theorem pressed_fold_mods (ks : List Nat) (r : KbHidReport) (k : Nat)
    (hmem : k ∈ ks) (hm : is_modifier k = true) :
    Nat.testBit (List.foldl pressed r ks).mods (k - 224) = true := by
  induction ks generalizing r with
  | nil => cases hmem
  | cons a t ih =>
    rcases List.mem_cons.1 hmem with rfl | hmem2
    · have hk224 : 224 ≤ k ∧ k ≤ 231 := by
        simpa [is_modifier] using hm
      have h0 : ¬ (k = 0) := by omega
      have h123 : ¬ (k = 1 ∨ k = 2 ∨ k = 3) := by omega
      have hset : Nat.testBit (pressed r k).mods (k - 224) = true := by
        simp [pressed, h0, h123, hm, as_modifier_bit, Nat.shiftLeft_eq,
          Nat.testBit_or, Nat.testBit_two_pow_self]
      exact pressed_foldl_mono t (pressed r k) (k - 224) hset
    · exact ih (pressed r a) hmem2

/-- Counterexample to **C2** as stated: folding the single keycode
`PostFail` (= 2), a non-modifier, fills bytes 2..8 with six copies of
`PostFail` (the dedicated error-code handling of `pressed`), not with
`PostFail` followed by five zeros as the claim predicts for a multiset
of at most six non-modifiers. -/
theorem claim_C2_cex :
    (List.foldl pressed KbHidReport.init [2]).keys
      ≠ 2 :: List.replicate 5 0 := by
  decide

/-- Claim C2 (amended: the folded multiset is restricted to keycodes other
than the four specially handled codes `No`, `ErrorRollOver`, `PostFail`
and `ErrorUndefined`, i.e. codes `≥ 4`).  For every such multiset: if
at most six non-modifier keycodes are pressed, report bytes 2..8 are
exactly those codes in insertion order followed by trailing zeros;
if more than six are pressed, bytes 2..8 all equal `ErrorRollOver`;
and every pressed modifier has its bit `1 <<< (code - LCtrl)` set in
byte 0. -/
theorem claim_C2 (ks : List Nat)
    (h : ∀ k ∈ ks, valid_key_code k ∧ 4 ≤ k) :
    ((ks.filter (fun k => !is_modifier k)).length ≤ 6 →
       (List.foldl pressed KbHidReport.init ks).keys
         = ks.filter (fun k => !is_modifier k)
           ++ List.replicate (6 - (ks.filter (fun k => !is_modifier k)).length) 0)
    ∧ (6 < (ks.filter (fun k => !is_modifier k)).length →
       (List.foldl pressed KbHidReport.init ks).keys = List.replicate 6 1)
    ∧ (∀ k ∈ ks, is_modifier k = true →
       Nat.testBit (List.foldl pressed KbHidReport.init ks).mods (k - 224)
         = true) := by
  have hkeys := pressed_fold_keys ks KbHidReport.init []
    (fun k hk => (h k hk).2) (by simp) (by simp [KbHidReport.init, keys_of])
  rw [List.nil_append] at hkeys
  refine ⟨?_, ?_, ?_⟩
  · intro h6
    rw [hkeys, keys_of, if_pos h6]
  · intro h6
    rw [hkeys, keys_of, if_neg (by omega)]
  · intro k hk hm
    exact pressed_fold_mods ks KbHidReport.init k hk hm

/-- Witness for C2 at the multiset `[LShift, A, A, RAlt]`
(`= [225, 4, 4, 230]`): bytes 2..8 are `A, A` then zeros and both
modifier bits are set. -/
theorem claim_C2_witness :
    (∀ k ∈ [225, 4, 4, 230], valid_key_code k ∧ 4 ≤ k)
    ∧ (List.foldl pressed KbHidReport.init [225, 4, 4, 230]).keys
        = [4, 4] ++ List.replicate 4 0
    ∧ Nat.testBit
        (List.foldl pressed KbHidReport.init [225, 4, 4, 230]).mods 1 = true
    ∧ Nat.testBit
        (List.foldl pressed KbHidReport.init [225, 4, 4, 230]).mods 6 = true :=
  ⟨by decide,
   (claim_C2 [225, 4, 4, 230] (by decide)).1 (by decide),
   (claim_C2 [225, 4, 4, 230] (by decide)).2.2 225 (by decide) rfl,
   (claim_C2 [225, 4, 4, 230] (by decide)).2.2 230 (by decide) rfl⟩

/-! ## C3: the debouncer -/

theorem no_long_run_tail {α : Type} (c : α) (N : Nat) (x : α) (xs : List α)
    (h : no_long_run c N (x :: xs)) : no_long_run c N xs := by
  intro v p s hv he
  exact h v (x :: p) s hv (by simp [he])

/-- Under `no_long_run`, every initial run of a non-`c` value is short. -/
theorem prefix_run_lt {α : Type} [DecidableEq α] (c v : α) (N : Nat)
    (xs : List α) (h : no_long_run c N xs) (hv : v ≠ c) :
    prefix_run v xs < N := by
  by_contra hge
  push_neg at hge
  have htw : xs.takeWhile (fun y => y == v)
      = List.replicate (prefix_run v xs) v := by
    rw [List.eq_replicate_iff]
    exact ⟨rfl, fun b hb => by simpa using List.mem_takeWhile_imp hb⟩
  have hsplit : xs = List.replicate (prefix_run v xs) v
      ++ xs.dropWhile (fun y => y == v) := by
    conv_lhs => rw [← List.takeWhile_append_dropWhile
      (fun (y : α) => y == v) xs]
    rw [htw]
  have hk : prefix_run v xs = N + (prefix_run v xs - N) := by omega
  refine h v [] (List.replicate (prefix_run v xs - N) v
    ++ xs.dropWhile (fun y => y == v)) hv ?_
  rw [List.nil_append, ← List.append_assoc, ← List.replicate_add, ← hk]
  exact hsplit

/-- Core argument for C3: starting from a debouncer whose counter and
candidate run are compatible with the remaining input, no update in the
run triggers and the validated state never changes. -/
theorem debounce_no_trigger {α : Type} [DecidableEq α] :
    ∀ (xs : List α) (d : Debouncer α),
      no_long_run d.cur d.nb_bounce xs →
      (d.new = d.cur ∨ d.since + prefix_run d.new xs ≤ d.nb_bounce) →
      (run_updates d xs).2 = false ∧ (run_updates d xs).1.cur = d.cur := by
  intro xs
  induction xs with
  | nil => exact fun d _ _ => ⟨rfl, rfl⟩
  | cons x t ih =>
    intro d hrun hinv
    by_cases hcx : d.cur = x
    · have hupd : d.update x = ({ d with since := 0 }, false) := by
        simp [Debouncer.update, hcx]
      have ht := ih { d with since := 0 } (no_long_run_tail _ _ _ _ hrun) ?_
      · simp only [run_updates, hupd]
        exact ⟨by simp [ht.1], ht.2⟩
      · by_cases hnc : d.new = d.cur
        · exact Or.inl hnc
        · refine Or.inr ?_
          have := prefix_run_lt d.cur d.new d.nb_bounce t
            (no_long_run_tail _ _ _ _ hrun) hnc
          simpa using Nat.le_of_lt this
    · by_cases hnx : d.new = x
      · subst hnx
        have hpr : prefix_run d.new (d.new :: t) = 1 + prefix_run d.new t := by
          simp [prefix_run, List.takeWhile_cons]
          omega
        have hinv2 : d.since + prefix_run d.new (d.new :: t) ≤ d.nb_bounce := by
          rcases hinv with h1 | h2
          · exact absurd h1.symm hcx
          · exact h2
        have hsince : d.since + 1 ≤ d.nb_bounce := by
          rw [hpr] at hinv2
          omega
        have hupd : d.update d.new = ({ d with since := d.since + 1 }, false) := by
          simp [Debouncer.update, hcx, Nat.not_lt.2 hsince]
        have ht := ih { d with since := d.since + 1 }
          (no_long_run_tail _ _ _ _ hrun) ?_
        · simp only [run_updates, hupd]
          exact ⟨by simp [ht.1], ht.2⟩
        · refine Or.inr ?_
          rw [hpr] at hinv2
          show d.since + 1 + prefix_run d.new t ≤ d.nb_bounce
          omega
      · have hxc : x ≠ d.cur := fun he => hcx he.symm
        have hlt := prefix_run_lt d.cur x d.nb_bounce (x :: t) hrun hxc
        have hprx : prefix_run x (x :: t) = 1 + prefix_run x t := by
          simp [prefix_run, List.takeWhile_cons]
          omega
        rw [hprx] at hlt
        have hupd : d.update x = ({ d with new := x, since := 1 }, false) := by
          simp [Debouncer.update, hcx, hnx, Nat.not_lt.2 (by omega : 1 ≤ d.nb_bounce)]
        have ht := ih { d with new := x, since := 1 }
          (no_long_run_tail _ _ _ _ hrun) ?_
        · simp only [run_updates, hupd]
          exact ⟨by simp [ht.1], ht.2⟩
        · refine Or.inr ?_
          show 1 + prefix_run x t ≤ d.nb_bounce
          omega

/-- Claim C3. For every debouncer with threshold `N` (counter fresh) and
every input sequence in which no state other than the current one is
seen `N` times consecutively, no `update` of the run returns true and
`get()` is unchanged; a single `update` returns true exactly when the
sample differs from the current state and the updated counter — which
restarts at 1 for a fresh candidate, increments while the candidate
repeats and resets to 0 on a sample equal to the current state —
exceeds `N`; and when it returns true the current and candidate states
are swapped (the new sample becomes current) and the counter is
cleared. -/
theorem claim_C3 {α : Type} [DecidableEq α] (d : Debouncer α) (xs : List α)
    (x : α) :
    (d.since = 0 → no_long_run d.cur d.nb_bounce xs →
      (run_updates d xs).2 = false ∧ (run_updates d xs).1.cur = d.cur)
    ∧ ((d.update x).2 = true ↔
        (x ≠ d.cur ∧ d.nb_bounce < (if d.new = x then d.since + 1 else 1)))
    ∧ ((d.update x).2 = true →
        (d.update x).1.cur = x ∧ (d.update x).1.new = d.cur
          ∧ (d.update x).1.since = 0) := by
  refine ⟨?_, ?_, ?_⟩
  · intro hs hrun
    refine debounce_no_trigger xs d hrun ?_
    by_cases hnc : d.new = d.cur
    · exact Or.inl hnc
    · refine Or.inr ?_
      rw [hs]
      simpa using Nat.le_of_lt (prefix_run_lt d.cur d.new d.nb_bounce xs hrun hnc)
  · by_cases hcx : d.cur = x
    · simp [Debouncer.update, hcx]
    · have hxc : x ≠ d.cur := fun he => hcx he.symm
      by_cases hnx : d.new = x
      · rcases Nat.lt_or_ge d.nb_bounce (d.since + 1) with hlt | hge
        · simp [Debouncer.update, hcx, hnx, hlt, hxc]
        · simp [Debouncer.update, hcx, hnx, Nat.not_lt.2 hge]
      · rcases Nat.lt_or_ge d.nb_bounce 1 with hlt | hge
        · simp [Debouncer.update, hcx, hnx, hlt, hxc]
        · simp [Debouncer.update, hcx, hnx, Nat.not_lt.2 hge]
  · intro htrue
    by_cases hcx : d.cur = x
    · simp [Debouncer.update, hcx] at htrue
    · by_cases hnx : d.new = x
      · rcases Nat.lt_or_ge d.nb_bounce (d.since + 1) with hlt | hge
        · subst hnx
          simp [Debouncer.update, hcx, hlt]
        · simp [Debouncer.update, hcx, hnx, Nat.not_lt.2 hge] at htrue
      · rcases Nat.lt_or_ge d.nb_bounce 1 with hlt | hge
        · simp [Debouncer.update, hcx, hnx, hlt]
        · simp [Debouncer.update, hcx, hnx, Nat.not_lt.2 hge] at htrue

/-- Witness for C3: the sample sequence `[1, 0, 1]` never shows a
non-current value twice in a row, so a threshold-2 debouncer at state 0
reports no change; and a threshold-1 debouncer whose candidate 1 has
already been seen twice triggers on the third sighting, swapping in the
candidate. -/
theorem claim_C3_witness :
    ((run_updates (⟨0, 0, 0, 2⟩ : Debouncer Nat) [1, 0, 1]).2 = false
      ∧ (run_updates (⟨0, 0, 0, 2⟩ : Debouncer Nat) [1, 0, 1]).1.cur = 0)
    ∧ ((⟨0, 1, 2, 1⟩ : Debouncer Nat).update 1).2 = true
    ∧ ((⟨0, 1, 2, 1⟩ : Debouncer Nat).update 1).1.cur = 1
    ∧ ((⟨0, 1, 2, 1⟩ : Debouncer Nat).update 1).1.new = 0
    ∧ ((⟨0, 1, 2, 1⟩ : Debouncer Nat).update 1).1.since = 0 := by
  have hnr : no_long_run (0 : Nat) 2 [1, 0, 1] := by
    intro v p s hv h
    have hrep : List.replicate 2 v = [v, v] := rfl
    rw [hrep] at h
    rcases p with _ | ⟨a, _ | ⟨b, t⟩⟩
    · simp at h
      omega
    · simp at h
      omega
    · simp at h
      obtain ⟨-, -, h3⟩ := h
      cases t with
      | nil => simp at h3
      | cons c u => simp at h3
  have htr : ((⟨0, 1, 2, 1⟩ : Debouncer Nat).update 1).2 = true :=
    (claim_C3 (⟨0, 1, 2, 1⟩ : Debouncer Nat) [] 1).2.1.2 (by decide)
  have hsw := (claim_C3 (⟨0, 1, 2, 1⟩ : Debouncer Nat) [] 1).2.2 htr
  exact ⟨(claim_C3 (⟨0, 0, 0, 2⟩ : Debouncer Nat) [1, 0, 1] 0).1 rfl hnr,
    htr, hsw.1, hsw.2.1, hsw.2.2⟩

end Keyberon
